import Mathlib

/-!
# Safe cursor protocol: shallow embedding and verification

The library is an extension trait (`SafeBuf`) over a byte cursor
(`bytes::Buf`).  The cursor is modelled as the list of its unread bytes, so
`remaining()` is the list length and advancing by `n` is `List.drop n`.
Every `&mut self` operation is embedded in state-passing style: it returns
its result together with the cursor state afterwards.  The raw (panicking)
primitives of `bytes::Buf` — `get_*`, `get_*_le`, `copy_to_bytes`,
`copy_to_slice`, `put_*` — are the external collaborator; they are modelled
by their byte-level semantics (big- or little-endian base-256 decoding,
two's-complement reinterpretation for the signed widths).
-/

deriving instance DecidableEq for Except

namespace SaferBytes

/-- `error::Truncated`: tried to read something, but not enough bytes were
left in the buffer. -/
inductive Truncated : Type where
  | mk
deriving DecidableEq, Repr

/-- `error::ExtraneousBytes`: called `should_be_exhausted`, but found bytes
anyway. -/
inductive ExtraneousBytes : Type where
  | mk
deriving DecidableEq, Repr

/-- `error::Error`: the unifying decode error of the crate. -/
inductive Error : Type where
  | Truncated
  | ExtraneousBytes
  | Deserialization (msg : String)
deriving DecidableEq, Repr

/-- The cursor: the list of its unread bytes. -/
abbrev Buf := List Nat

/-- `Buf::remaining()`: the count of unread bytes. -/
def remaining (b : Buf) : Nat := b.length

/-- `Buf::has_remaining()`: `remaining() > 0`. -/
def has_remaining (b : Buf) : Bool := decide (0 < remaining b)

/-- Little-endian base-256 value of a byte list. -/
def leVal : List Nat → Nat
  | [] => 0
  | x :: xs => x + 256 * leVal xs

/-- Big-endian base-256 value of a byte list (the semantics of the raw
`Buf::get_*` getters). -/
def beVal (l : List Nat) : Nat := leVal l.reverse

/-- Two's-complement reinterpretation of a `w`-byte unsigned value, the
semantics of the raw signed getters `Buf::get_i*`. -/
def toSigned (w u : Nat) : Int :=
  if u < 2 ^ (8 * w - 1) then (u : Int) else (u : Int) - 2 ^ (8 * w)

/-- The `get_primitive_checked_be!` macro: `try_get_<t>` for an unsigned
type of width `w`.  From the source: if `self.remaining() >= width` then
`Ok(self.get_t())` else `Err(Truncated)`; the raw getter consumes `w` bytes
and decodes them big-endian. -/
def get_primitive_checked_be (w : Nat) (b : Buf) : Except Truncated Nat × Buf :=
  if remaining b ≥ w then (.ok (beVal (b.take w)), b.drop w) else (.error .mk, b)

/-- The `get_primitive_checked_le!` macro: `try_get_<t>_le` for an unsigned
type of width `w` (little-endian decode). -/
def get_primitive_checked_le (w : Nat) (b : Buf) : Except Truncated Nat × Buf :=
  if remaining b ≥ w then (.ok (leVal (b.take w)), b.drop w) else (.error .mk, b)

/-- The `get_primitive_checked_be!` macro instantiated at a signed type of
width `w`: same bounds check, big-endian decode reinterpreted as
two's complement. -/
def get_signed_checked_be (w : Nat) (b : Buf) : Except Truncated Int × Buf :=
  if remaining b ≥ w then (.ok (toSigned w (beVal (b.take w))), b.drop w)
  else (.error .mk, b)

/-- The `get_primitive_checked_le!` macro instantiated at a signed type of
width `w`. -/
def get_signed_checked_le (w : Nat) (b : Buf) : Except Truncated Int × Buf :=
  if remaining b ≥ w then (.ok (toSigned w (leVal (b.take w))), b.drop w)
  else (.error .mk, b)

/-- `SafeBuf::try_get_u8`. -/
def try_get_u8 : Buf → Except Truncated Nat × Buf := get_primitive_checked_be 1

/-- `SafeBuf::try_get_i8`. -/
def try_get_i8 : Buf → Except Truncated Int × Buf := get_signed_checked_be 1

/-- `SafeBuf::try_get_u16`. -/
def try_get_u16 : Buf → Except Truncated Nat × Buf := get_primitive_checked_be 2

/-- `SafeBuf::try_get_i16`. -/
def try_get_i16 : Buf → Except Truncated Int × Buf := get_signed_checked_be 2

/-- `SafeBuf::try_get_u32`. -/
def try_get_u32 : Buf → Except Truncated Nat × Buf := get_primitive_checked_be 4

/-- `SafeBuf::try_get_i32`. -/
def try_get_i32 : Buf → Except Truncated Int × Buf := get_signed_checked_be 4

/-- `SafeBuf::try_get_u64`. -/
def try_get_u64 : Buf → Except Truncated Nat × Buf := get_primitive_checked_be 8

/-- `SafeBuf::try_get_i64`. -/
def try_get_i64 : Buf → Except Truncated Int × Buf := get_signed_checked_be 8

/-- `SafeBuf::try_get_u128`. -/
def try_get_u128 : Buf → Except Truncated Nat × Buf := get_primitive_checked_be 16

/-- `SafeBuf::try_get_i128`. -/
def try_get_i128 : Buf → Except Truncated Int × Buf := get_signed_checked_be 16

/-- `SafeBuf::try_get_u16_le`. -/
def try_get_u16_le : Buf → Except Truncated Nat × Buf := get_primitive_checked_le 2

/-- `SafeBuf::try_get_i16_le`. -/
def try_get_i16_le : Buf → Except Truncated Int × Buf := get_signed_checked_le 2

/-- `SafeBuf::try_get_u32_le`. -/
def try_get_u32_le : Buf → Except Truncated Nat × Buf := get_primitive_checked_le 4

/-- `SafeBuf::try_get_i32_le`. -/
def try_get_i32_le : Buf → Except Truncated Int × Buf := get_signed_checked_le 4

/-- `SafeBuf::try_get_u64_le`. -/
def try_get_u64_le : Buf → Except Truncated Nat × Buf := get_primitive_checked_le 8

/-- `SafeBuf::try_get_i64_le`. -/
def try_get_i64_le : Buf → Except Truncated Int × Buf := get_signed_checked_le 8

/-- `SafeBuf::try_get_u128_le`. -/
def try_get_u128_le : Buf → Except Truncated Nat × Buf := get_primitive_checked_le 16

/-- `SafeBuf::try_get_i128_le`. -/
def try_get_i128_le : Buf → Except Truncated Int × Buf := get_signed_checked_le 16

/-- `SafeBuf::try_copy_to_bytes`: if `self.remaining() < len` then
`Err(Truncated)` else `Ok(self.copy_to_bytes(len))`, which takes the next
`len` bytes as an owned sequence and advances by `len`. -/
def try_copy_to_bytes (b : Buf) (len : Nat) : Except Truncated (List Nat) × Buf :=
  if remaining b < len then (.error .mk, b) else (.ok (b.take len), b.drop len)

/-- `SafeBuf::try_copy_to_slice`: if `self.remaining() < dst.len()` then
`Err(Truncated)` else `copy_to_slice(dst)` fills `dst` with the next
`dst.len()` bytes and advances by `dst.len()`.  Returns
(result, dst afterwards, cursor afterwards). -/
def try_copy_to_slice (b : Buf) (dst : List Nat) :
    Except Truncated Unit × List Nat × Buf :=
  if remaining b < dst.length then (.error .mk, dst, b)
  else (.ok (), b.take dst.length, b.drop dst.length)

/-- `SafeBuf::should_be_exhausted`: `Err(ExtraneousBytes)` if
`self.has_remaining()`, else `Ok(())`.  Takes `&self`; the cursor state
afterwards is returned to express that explicitly. -/
def should_be_exhausted (b : Buf) : Except ExtraneousBytes Unit × Buf :=
  if has_remaining b then (.error .mk, b) else (.ok (), b)

/-- The `FromBuf` trait: a type that constructs itself by reading bytes
from a cursor, returning `crate::Result<Self>`. -/
structure FromBuf (T : Type) : Type where
  from_buf : Buf → Except Error T × Buf

/-- `SafeBuf::extract<T>`: delegates to `T::from_buf(self)`. -/
def extract {T : Type} (inst : FromBuf T) (b : Buf) : Except Error T × Buf :=
  inst.from_buf b

/-- Modelled from the spec: the fixed-size `peek` variant is absent from
the crate's sources (the crate ships the `try_copy_*` design variant
instead).  Per the spec, `peek` fails with `Truncated` when
`remaining < n` and otherwise returns the next `n` bytes WITHOUT advancing
the cursor. -/
def peek (b : Buf) (n : Nat) : Except Truncated (List Nat) × Buf :=
  if remaining b < n then (.error .mk, b) else (.ok (b.take n), b)

/-- Modelled from the spec: `take` delegates to `peek` and then advances by
`n` on success, so the non-advancing and advancing behaviours cannot
diverge. -/
def take (b : Buf) (n : Nat) : Except Truncated (List Nat) × Buf :=
  match peek b n with
  | (.ok v, b') => (.ok v, b'.drop n)
  | (.error e, b') => (.error e, b')

/-- One checked primitive read of the protocol, as issued against a
cursor; the argument of `copySlice` is the destination buffer. -/
inductive PrimOp : Type where
  | getBE (w : Nat)
  | getLE (w : Nat)
  | getSignedBE (w : Nat)
  | getSignedLE (w : Nat)
  | copyBytes (len : Nat)
  | copySlice (dst : List Nat)

/-- The cursor state after one checked primitive read (whether it
succeeded or failed). -/
def applyPrim (o : PrimOp) (b : Buf) : Buf :=
  match o with
  | .getBE w => (get_primitive_checked_be w b).2
  | .getLE w => (get_primitive_checked_le w b).2
  | .getSignedBE w => (get_signed_checked_be w b).2
  | .getSignedLE w => (get_signed_checked_le w b).2
  | .copyBytes len => (try_copy_to_bytes b len).2
  | .copySlice dst => (try_copy_to_slice b dst).2.2

/-- A protocol operation on the cursor: a checked primitive read, the
exhaustion check, or `extract` of a decodable object, which (per the data
model) reads a sequence of primitive values from the one cursor. -/
inductive ProtoOp : Type where
  | prim (o : PrimOp)
  | shouldBeExhausted
  | extractObj (dec : List PrimOp)

/-- The cursor state after one protocol operation. -/
def applyProto (o : ProtoOp) (b : Buf) : Buf :=
  match o with
  | .prim o => applyPrim o b
  | .shouldBeExhausted => (should_be_exhausted b).2
  | .extractObj dec => dec.foldl (fun s o => applyPrim o s) b

/-- The cursor state after a sequence of protocol operations. -/
def runOps (ops : List ProtoOp) (b : Buf) : Buf :=
  ops.foldl (fun s o => applyProto o s) b

/-- Little-endian byte string of `v` in `w` bytes: the raw
`BufMut::put_*_le` semantics. -/
def encodeLE : Nat → Nat → List Nat
  | 0, _ => []
  | w + 1, v => v % 256 :: encodeLE w (v / 256)

/-- `BufMut::put_<unsigned>`: append the big-endian `w`-byte encoding. -/
def put_be (w v : Nat) (b : Buf) : Buf := b ++ (encodeLE w v).reverse

/-- `BufMut::put_<unsigned>_le`: append the little-endian `w`-byte
encoding. -/
def put_le (w v : Nat) (b : Buf) : Buf := b ++ encodeLE w v

/-- Two's-complement `w`-byte pattern of a signed value: the value the raw
`BufMut::put_i*` getters serialize. -/
def toUnsigned (w : Nat) (z : Int) : Nat := (z % (2 : Int) ^ (8 * w)).toNat

/-- `BufMut::put_<signed>`: append the big-endian two's-complement
encoding. -/
def put_signed_be (w : Nat) (z : Int) (b : Buf) : Buf :=
  put_be w (toUnsigned w z) b

/-- `BufMut::put_<signed>_le`: append the little-endian two's-complement
encoding. -/
def put_signed_le (w : Nat) (z : Int) (b : Buf) : Buf :=
  put_le w (toUnsigned w z) b

end SaferBytes

namespace SaferBytes

example : try_get_u16 [1, 2, 9] = (.ok 258, [9]) := by decide
example : try_get_u16_le [1, 2, 9] = (.ok 513, [9]) := by decide
example : try_get_u16 [1] = (.error .mk, [1]) := by decide
example : try_get_i8 [255] = (.ok (-1), []) := by decide
example : try_copy_to_bytes [0, 1, 2] 2 = (.ok [0, 1], [2]) := by decide
example : (should_be_exhausted []).1 = .ok () := by decide

/-- C1: every checked fixed-width read (either byte order, signed or
unsigned) returns `Truncated` with the cursor unchanged when
`remaining < width`; otherwise it consumes exactly `width` bytes, advances
the cursor by `width`, and returns the value decoded in the requested byte
order.  With `remaining = w` exactly the read succeeds and leaves
`remaining = 0`; with `remaining = w - 1` it fails with `Truncated` and
leaves `remaining = w - 1`. -/
theorem checked_read_width_contract (w : Nat) (b : Buf) :
    (remaining b < w →
      get_primitive_checked_be w b = (.error .mk, b) ∧
      get_primitive_checked_le w b = (.error .mk, b) ∧
      get_signed_checked_be w b = (.error .mk, b) ∧
      get_signed_checked_le w b = (.error .mk, b)) ∧
    (w ≤ remaining b →
      get_primitive_checked_be w b = (.ok (beVal (b.take w)), b.drop w) ∧
      get_primitive_checked_le w b = (.ok (leVal (b.take w)), b.drop w) ∧
      get_signed_checked_be w b = (.ok (toSigned w (beVal (b.take w))), b.drop w) ∧
      get_signed_checked_le w b = (.ok (toSigned w (leVal (b.take w))), b.drop w) ∧
      (b.take w).length = w ∧
      remaining (b.drop w) = remaining b - w) ∧
    (remaining b = w →
      (∃ v, (get_primitive_checked_be w b).1 = .ok v) ∧
      remaining (get_primitive_checked_be w b).2 = 0 ∧
      (∃ v, (get_primitive_checked_le w b).1 = .ok v) ∧
      remaining (get_primitive_checked_le w b).2 = 0 ∧
      (∃ z, (get_signed_checked_be w b).1 = .ok z) ∧
      remaining (get_signed_checked_be w b).2 = 0 ∧
      (∃ z, (get_signed_checked_le w b).1 = .ok z) ∧
      remaining (get_signed_checked_le w b).2 = 0) ∧
    (0 < w → remaining b = w - 1 →
      get_primitive_checked_be w b = (.error .mk, b) ∧
      get_primitive_checked_le w b = (.error .mk, b) ∧
      get_signed_checked_be w b = (.error .mk, b) ∧
      get_signed_checked_le w b = (.error .mk, b)) := by
  refine ⟨fun h => ?_, fun h => ?_, fun h => ?_, fun hw h => ?_⟩
  · have hn : ¬ remaining b ≥ w := by omega
    simp [get_primitive_checked_be, get_primitive_checked_le,
      get_signed_checked_be, get_signed_checked_le, hn]
  · have hy : remaining b ≥ w := h
    simp [get_primitive_checked_be, get_primitive_checked_le,
      get_signed_checked_be, get_signed_checked_le, hy, remaining,
      List.length_take, List.length_drop]
    exact h
  · simp only [remaining] at h
    have hy : w ≤ List.length b := by omega
    simp [get_primitive_checked_be, get_primitive_checked_le,
      get_signed_checked_be, get_signed_checked_le, hy, remaining,
      List.length_drop]
    omega
  · have hn : ¬ remaining b ≥ w := by omega
    simp [get_primitive_checked_be, get_primitive_checked_le,
      get_signed_checked_be, get_signed_checked_le, hn]

/-- Witness for C1 at width 2: failure on one byte, success on three bytes,
exact boundary on two bytes, one-short boundary on one byte. -/
theorem checked_read_width_contract_witness :
    get_primitive_checked_be 2 [5] = (.error .mk, [5]) ∧
    get_primitive_checked_be 2 [1, 2, 9] = (.ok 258, [9]) ∧
    remaining (get_primitive_checked_be 2 [3, 4]).2 = 0 ∧
    get_primitive_checked_le 2 [7] = (.error .mk, [7]) := by
  have h1 := (checked_read_width_contract 2 [5]).1 (by decide)
  have h2 := (checked_read_width_contract 2 [1, 2, 9]).2.1 (by decide)
  have h3 := (checked_read_width_contract 2 [3, 4]).2.2.1 (by decide)
  have h4 := (checked_read_width_contract 2 [7]).2.2.2 (by decide) (by decide)
  exact ⟨h1.1, by rw [h2.1]; decide, by rw [h3.2.1], h4.2.1⟩

/-- C2: every checked read that requests more bytes than remain fails and
is a no-op on the cursor state (and, for `try_copy_to_slice`, also on the
destination). -/
theorem failed_checked_read_is_noop (w : Nat) (b : Buf) (dst : List Nat) :
    (remaining b < w →
      get_primitive_checked_be w b = (.error .mk, b) ∧
      get_primitive_checked_le w b = (.error .mk, b) ∧
      get_signed_checked_be w b = (.error .mk, b) ∧
      get_signed_checked_le w b = (.error .mk, b) ∧
      try_copy_to_bytes b w = (.error .mk, b)) ∧
    (remaining b < dst.length →
      try_copy_to_slice b dst = (.error .mk, dst, b)) := by
  constructor
  · intro h
    have hn : ¬ remaining b ≥ w := by omega
    simp [get_primitive_checked_be, get_primitive_checked_le,
      get_signed_checked_be, get_signed_checked_le, try_copy_to_bytes, hn, h]
  · intro h
    simp [try_copy_to_slice, h]

/-- Witness for C2: a cursor of two bytes, a request of width 4 and a
four-byte destination. -/
theorem failed_checked_read_is_noop_witness :
    try_copy_to_bytes [8, 9] 4 = (.error .mk, [8, 9]) ∧
    try_copy_to_slice [8, 9] [0, 0, 0, 0] = (.error .mk, [0, 0, 0, 0], [8, 9]) := by
  have h := failed_checked_read_is_noop 4 [8, 9] [0, 0, 0, 0]
  exact ⟨(h.1 (by decide)).2.2.2.2, h.2 (by decide)⟩

/-- C3: `should_be_exhausted` succeeds iff `remaining = 0`, fails with
`ExtraneousBytes` on every nonzero `remaining`, and never mutates the
cursor. -/
theorem should_be_exhausted_contract (b : Buf) :
    ((should_be_exhausted b).1 = .ok () ↔ remaining b = 0) ∧
    (remaining b ≠ 0 → (should_be_exhausted b).1 = .error .mk) ∧
    (should_be_exhausted b).2 = b := by
  refine ⟨?_, fun h => ?_, ?_⟩
  · constructor
    · intro h
      by_contra hne
      have : has_remaining b = true := by
        simp [has_remaining]; omega
      simp [should_be_exhausted, this] at h
    · intro h
      have : has_remaining b = false := by simp [has_remaining, h]
      simp [should_be_exhausted, this]
  · have : has_remaining b = true := by simp [has_remaining]; omega
    simp [should_be_exhausted, this]
  · unfold should_be_exhausted
    split <;> rfl

/-- Witness for C3: a nonempty cursor fails with `ExtraneousBytes`. -/
theorem should_be_exhausted_contract_witness :
    (should_be_exhausted [1, 2]).1 = .error .mk :=
  (should_be_exhausted_contract [1, 2]).2.1 (by decide)

/-- C4: `try_copy_to_bytes len` fails with `Truncated` and leaves the
cursor unchanged when `remaining < len`, and otherwise returns exactly the
next `len` bytes and advances by `len`; the concrete ten-byte scenario. -/
theorem try_copy_to_bytes_contract (b : Buf) (len : Nat) :
    (remaining b < len → try_copy_to_bytes b len = (.error .mk, b)) ∧
    (len ≤ remaining b →
      try_copy_to_bytes b len = (.ok (b.take len), b.drop len) ∧
      (b.take len).length = len ∧
      remaining (b.drop len) = remaining b - len) ∧
    (try_copy_to_bytes [0, 1, 2, 3, 4, 5, 6, 7, 8, 9] 4 =
        (.ok [0, 1, 2, 3], [4, 5, 6, 7, 8, 9]) ∧
      try_copy_to_bytes [4, 5, 6, 7, 8, 9] 4 = (.ok [4, 5, 6, 7], [8, 9]) ∧
      try_copy_to_bytes [8, 9] 4 = (.error .mk, [8, 9]) ∧
      remaining (try_copy_to_bytes [8, 9] 4).2 = 2) := by
  refine ⟨fun h => ?_, fun h => ?_, by decide⟩
  · simp [try_copy_to_bytes, h]
  · have hn : ¬ remaining b < len := by omega
    simp [try_copy_to_bytes, hn, remaining, List.length_take, List.length_drop]
    exact h

/-- Witness for C4 on the ten-byte cursor of the concrete scenario. -/
theorem try_copy_to_bytes_contract_witness :
    try_copy_to_bytes [8, 9] 4 = (.error .mk, [8, 9]) ∧
    try_copy_to_bytes [0, 1, 2, 3, 4, 5, 6, 7, 8, 9] 4 =
      (.ok [0, 1, 2, 3], [4, 5, 6, 7, 8, 9]) := by
  have h1 := (try_copy_to_bytes_contract [8, 9] 4).1 (by decide)
  have h2 := (try_copy_to_bytes_contract [0, 1, 2, 3, 4, 5, 6, 7, 8, 9] 4).2.1
    (by decide)
  exact ⟨h1, by rw [h2.1]; decide⟩

/-- C5: `try_copy_to_slice` is driven by the destination's length: when
`remaining < dst.len()` it fails with `Truncated` leaving cursor and
destination unchanged; otherwise it fills the destination with the next
`dst.len()` bytes, advances by exactly `dst.len()`, and succeeds. -/
theorem try_copy_to_slice_contract (b : Buf) (dst : List Nat) :
    (remaining b < dst.length →
      try_copy_to_slice b dst = (.error .mk, dst, b)) ∧
    (dst.length ≤ remaining b →
      try_copy_to_slice b dst = (.ok (), b.take dst.length, b.drop dst.length) ∧
      (b.take dst.length).length = dst.length ∧
      remaining (b.drop dst.length) = remaining b - dst.length) := by
  refine ⟨fun h => ?_, fun h => ?_⟩
  · simp [try_copy_to_slice, h]
  · have hn : ¬ remaining b < dst.length := by omega
    simp [try_copy_to_slice, hn, remaining, List.length_take, List.length_drop]
    exact h

/-- Witness for C5: failure on a short cursor, success on a long one. -/
theorem try_copy_to_slice_contract_witness :
    try_copy_to_slice [8, 9] [0, 0, 0] = (.error .mk, [0, 0, 0], [8, 9]) ∧
    try_copy_to_slice [4, 5, 6] [0, 0] = (.ok (), [4, 5], [6]) := by
  have h1 := (try_copy_to_slice_contract [8, 9] [0, 0, 0]).1 (by decide)
  have h2 := (try_copy_to_slice_contract [4, 5, 6] [0, 0]).2 (by decide)
  exact ⟨h1, by rw [h2.1]; decide⟩

/-- C8: `extract` adds no logic beyond delegation: it is exactly the
decodable type's own construct-from-cursor operation, returning the same
result and producing the same cursor state. -/
theorem extract_eq_from_buf {T : Type} (inst : FromBuf T) (b : Buf) :
    extract inst b = inst.from_buf b := rfl

/-- C7: `peek` never advances the cursor; `take` returns the same bytes as
`peek`, and on a cursor with `remaining ≥ n` the state after `take n`
equals the state after `peek n` followed by manually advancing `n`
bytes. -/
theorem peek_take_equivalence (b : Buf) (n : Nat) :
    (peek b n).2 = b ∧
    (take b n).1 = (peek b n).1 ∧
    (n ≤ remaining b →
      (peek b n).1 = .ok (b.take n) ∧
      take b n = (.ok (b.take n), ((peek b n).2).drop n)) := by
  by_cases h : remaining b < n
  · refine ⟨?_, ?_, fun hn => ?_⟩
    · simp [peek, h]
    · simp [take, peek, h]
    · omega
  · refine ⟨?_, ?_, fun hn => ?_⟩
    · simp [peek, h]
    · simp [take, peek, h]
    · simp [take, peek, h]

/-- Witness for C7 on a three-byte cursor with `n = 2`. -/
theorem peek_take_equivalence_witness :
    peek [1, 2, 3] 2 = (.ok [1, 2], [1, 2, 3]) ∧
    take [1, 2, 3] 2 = (.ok [1, 2], [3]) := by
  have h := (peek_take_equivalence [1, 2, 3] 2).2.2 (by decide)
  exact ⟨by rw [Prod.ext_iff]; exact ⟨by rw [h.1]; decide, by decide⟩,
    by rw [h.2]; decide⟩

/-- Every checked primitive read leaves at most as many bytes remaining as
it found, whether it succeeded or failed. -/
theorem applyPrim_remaining_le (o : PrimOp) (b : Buf) :
    remaining (applyPrim o b) ≤ remaining b := by
  cases o <;>
    simp only [applyPrim, get_primitive_checked_be, get_primitive_checked_le,
      get_signed_checked_be, get_signed_checked_le, try_copy_to_bytes,
      try_copy_to_slice] <;>
    split <;> simp [remaining, List.length_drop]

/-- A decodable object's sequence of primitive reads never increases
`remaining`. -/
theorem foldl_applyPrim_remaining_le (dec : List PrimOp) (b : Buf) :
    remaining (dec.foldl (fun s o => applyPrim o s) b) ≤ remaining b := by
  induction dec generalizing b with
  | nil => simp
  | cons o os ih =>
      simp only [List.foldl_cons]
      exact le_trans (ih (applyPrim o b)) (applyPrim_remaining_le o b)

/-- Every protocol operation leaves at most as many bytes remaining as it
found. -/
theorem applyProto_remaining_le (o : ProtoOp) (b : Buf) :
    remaining (applyProto o b) ≤ remaining b := by
  cases o with
  | prim o => exact applyPrim_remaining_le o b
  | shouldBeExhausted =>
      simp only [applyProto, should_be_exhausted]
      split <;> simp
  | extractObj dec => exact foldl_applyPrim_remaining_le dec b

/-- A sequence of protocol operations never increases `remaining`. -/
theorem runOps_remaining_le (ops : List ProtoOp) (b : Buf) :
    remaining (runOps ops b) ≤ remaining b := by
  induction ops generalizing b with
  | nil => simp [runOps]
  | cons o os ih =>
      simp only [runOps, List.foldl_cons]
      exact le_trans (ih (applyProto o b)) (applyProto_remaining_le o b)

/-- C9: across every protocol operation — any checked read of any width
and byte order, `try_copy_to_bytes`, `try_copy_to_slice`,
`should_be_exhausted`, or `extract` of a decodable object — and whether it
succeeds or fails, `remaining` is monotonically non-increasing, and hence
non-increasing along any sequence of such operations. -/
theorem remaining_monotone_nonincreasing (o : ProtoOp) (ops : List ProtoOp)
    (b : Buf) :
    remaining (applyProto o b) ≤ remaining b ∧
    remaining (runOps ops b) ≤ remaining b :=
  ⟨applyProto_remaining_le o b, runOps_remaining_le ops b⟩

/-- `encodeLE` produces exactly `w` bytes. -/
theorem encodeLE_length (w : Nat) : ∀ v, (encodeLE w v).length = w := by
  induction w with
  | zero => intro v; rfl
  | succ w ih => intro v; simp [encodeLE, ih]

/-- Little-endian decode inverts little-endian encode modulo `2 ^ (8w)`. -/
theorem leVal_encodeLE (w : Nat) : ∀ v, leVal (encodeLE w v) = v % 2 ^ (8 * w) := by
  induction w with
  | zero => intro v; simp [encodeLE, leVal, Nat.mod_one]
  | succ w ih =>
      intro v
      have hpow : 2 ^ (8 * (w + 1)) = 256 * 2 ^ (8 * w) := by
        rw [show 8 * (w + 1) = 8 + 8 * w by ring, pow_add]
        norm_num
      rw [encodeLE, leVal, ih, hpow, Nat.mod_mul]

/-- The two's-complement pattern fits in `w` bytes. -/
theorem toUnsigned_lt (w : Nat) (z : Int) : toUnsigned w z < 2 ^ (8 * w) := by
  have hpos : (0 : Int) < 2 ^ (8 * w) := by positivity
  have hlt : z % (2 : Int) ^ (8 * w) < 2 ^ (8 * w) := Int.emod_lt_of_pos z hpos
  have h0 : 0 ≤ z % (2 : Int) ^ (8 * w) := Int.emod_nonneg z (ne_of_gt hpos)
  have hcast : ((2 ^ (8 * w) : Nat) : Int) = (2 : Int) ^ (8 * w) := by
    push_cast; rfl
  exact (Int.toNat_lt h0).mpr (by rw [hcast]; exact hlt)

/-- Two's-complement decode inverts two's-complement encode on the
representable range. -/
theorem toSigned_toUnsigned (w : Nat) (z : Int) (hw : 0 < w)
    (h1 : -(2 : Int) ^ (8 * w - 1) ≤ z) (h2 : z < (2 : Int) ^ (8 * w - 1)) :
    toSigned w (toUnsigned w z) = z := by
  have hsplit : 8 * w = (8 * w - 1) + 1 := by omega
  have hM2 : (2 : Int) ^ (8 * w) = 2 * 2 ^ (8 * w - 1) := by
    rw [hsplit, Nat.add_sub_cancel, pow_succ]; ring
  have hHpos : (0 : Int) < 2 ^ (8 * w - 1) := by positivity
  have hcastH : ((2 ^ (8 * w - 1) : Nat) : Int) = (2 : Int) ^ (8 * w - 1) := by
    push_cast; rfl
  rcases le_or_lt 0 z with hz | hz
  · have hlt : z < (2 : Int) ^ (8 * w) := by rw [hM2]; linarith
    have hmod : z % (2 : Int) ^ (8 * w) = z := Int.emod_eq_of_lt hz hlt
    unfold toSigned toUnsigned
    rw [hmod]
    have hcond : z.toNat < 2 ^ (8 * w - 1) := by
      rw [← hcastH] at h2
      exact (Int.toNat_lt hz).mpr h2
    rw [if_pos hcond, Int.toNat_of_nonneg hz]
  · have hzM : 0 ≤ z + 2 ^ (8 * w) := by rw [hM2]; linarith
    have hltM : z + 2 ^ (8 * w) < 2 ^ (8 * w) := by linarith
    have hmod : z % (2 : Int) ^ (8 * w) = z + 2 ^ (8 * w) := by
      have h' : (z + 2 ^ (8 * w) * 1) % 2 ^ (8 * w) = z % 2 ^ (8 * w) :=
        Int.add_mul_emod_self_left z (2 ^ (8 * w)) 1
      rw [mul_one] at h'
      rw [← h', Int.emod_eq_of_lt hzM hltM]
    unfold toSigned toUnsigned
    rw [hmod]
    have hge : ¬ (z + 2 ^ (8 * w)).toNat < 2 ^ (8 * w - 1) := by
      rw [not_lt]
      refine (Int.le_toNat hzM).mpr ?_
      rw [hcastH, hM2]
      linarith
    rw [if_neg hge, Int.toNat_of_nonneg hzM]
    ring

/-- Unsigned big-endian round trip through a fresh buffer. -/
theorem get_be_put_be (w u : Nat) (hu : u < 2 ^ (8 * w)) :
    get_primitive_checked_be w (put_be w u []) = (.ok u, []) := by
  have h1 : ((encodeLE w u).reverse).length = w := by simp [encodeLE_length]
  have hput : put_be w u [] = (encodeLE w u).reverse := by simp [put_be]
  rw [hput, get_primitive_checked_be, if_pos]
  · rw [List.take_of_length_le (le_of_eq h1),
      List.drop_eq_nil_of_le (le_of_eq h1), beVal, List.reverse_reverse,
      leVal_encodeLE, Nat.mod_eq_of_lt hu]
  · simp [remaining, h1]

/-- Unsigned little-endian round trip through a fresh buffer. -/
theorem get_le_put_le (w u : Nat) (hu : u < 2 ^ (8 * w)) :
    get_primitive_checked_le w (put_le w u []) = (.ok u, []) := by
  have h1 : (encodeLE w u).length = w := encodeLE_length w u
  have hput : put_le w u [] = encodeLE w u := by simp [put_le]
  rw [hput, get_primitive_checked_le, if_pos]
  · rw [List.take_of_length_le (le_of_eq h1),
      List.drop_eq_nil_of_le (le_of_eq h1), leVal_encodeLE,
      Nat.mod_eq_of_lt hu]
  · simp [remaining, h1]

/-- C6: for every supported width, signedness and byte order, writing a
value with the unchecked put primitive and then performing the matching
checked read succeeds with exactly that value and leaves the cursor
exhausted. -/
theorem put_then_get_round_trip (w : Nat) (v : Nat) (z : Int) :
    (v < 2 ^ (8 * w) →
      get_primitive_checked_be w (put_be w v []) = (.ok v, []) ∧
      get_primitive_checked_le w (put_le w v []) = (.ok v, [])) ∧
    (0 < w → -(2 : Int) ^ (8 * w - 1) ≤ z → z < (2 : Int) ^ (8 * w - 1) →
      get_signed_checked_be w (put_signed_be w z []) = (.ok z, []) ∧
      get_signed_checked_le w (put_signed_le w z []) = (.ok z, [])) := by
  constructor
  · intro hv
    exact ⟨get_be_put_be w v hv, get_le_put_le w v hv⟩
  · intro hw hlo hhi
    have hu : toUnsigned w z < 2 ^ (8 * w) := toUnsigned_lt w z
    have hbe := get_be_put_be w (toUnsigned w z) hu
    have hle := get_le_put_le w (toUnsigned w z) hu
    have hsig := toSigned_toUnsigned w z hw hlo hhi
    constructor
    · unfold put_signed_be
      unfold get_primitive_checked_be at hbe
      unfold get_signed_checked_be
      split at hbe <;> rename_i hcond
      · rw [if_pos hcond]
        have h1 := congrArg Prod.fst hbe
        have h2 := congrArg Prod.snd hbe
        simp only at h1 h2
        rw [h2]
        have : beVal ((put_be w (toUnsigned w z) []).take w) = toUnsigned w z := by
          have := congrArg Prod.fst hbe
          simpa using this
        rw [this, hsig]
      · simp at hbe
    · unfold put_signed_le
      unfold get_primitive_checked_le at hle
      unfold get_signed_checked_le
      split at hle <;> rename_i hcond
      · rw [if_pos hcond]
        have h2 := congrArg Prod.snd hle
        simp only at h2
        rw [h2]
        have : leVal ((put_le w (toUnsigned w z) []).take w) = toUnsigned w z := by
          have := congrArg Prod.fst hle
          simpa using this
        rw [this, hsig]
      · simp at hle

/-- Witness for C6 at width 2: the unsigned value 17 and the signed value
-1 both round-trip. -/
theorem put_then_get_round_trip_witness :
    get_primitive_checked_be 2 (put_be 2 17 []) = (.ok 17, []) ∧
    get_signed_checked_le 2 (put_signed_le 2 (-1) []) = (.ok (-1), []) := by
  have h1 := (put_then_get_round_trip 2 17 (-1)).1 (by norm_num)
  have h2 := (put_then_get_round_trip 2 17 (-1)).2 (by norm_num) (by norm_num)
    (by norm_num)
  exact ⟨h1.1, h2.2⟩

/-- C10: zero-length dynamic reads always succeed, even on an empty
cursor, and leave `remaining` unchanged. -/
theorem zero_length_reads_succeed (b : Buf) :
    try_copy_to_bytes b 0 = (.ok [], b) ∧
    try_copy_to_slice b [] = (.ok (), [], b) := by
  constructor
  · simp [try_copy_to_bytes, remaining]
  · simp [try_copy_to_slice, remaining]

end SaferBytes
